import Mathlib

/-!
Verification development for the imq-rpc client runtime.

The definitions below are a shallow embedding of `src/IMQClient.ts` and the
`IMQDelay` class source.  JavaScript strings are modelled as lists of
characters, JavaScript numbers reachable in the delay computation as exact
rationals extended with NaN and the two infinities, and the pending-call
resolver registry (a plain JavaScript object keyed by correlation id) as an
association list.  Stateful handlers are modelled as pure functions from the
registry and the inbound message to an outcome together with the updated
registry.
-/

set_option autoImplicit false

namespace ImqRpc

/-- Character-list model of a JavaScript string. -/
abbrev Str := List Char

/-- Converts a Lean string literal into the character-list model. -/
def str (s : String) : Str := s.data

/-- Model of the JavaScript numbers reachable in the delay computation:
exact rationals for finite doubles plus NaN and the two infinities.
In this development multiplication only ever happens against the positive
integer unit scales of `IMQDelay`, where the rational model agrees with
IEEE double semantics on sign and finiteness. -/
inductive JSNum
  | num (q : ℚ)
  | nan
  | inf
  | neginf
  deriving DecidableEq

/-- Multiplication of a JavaScript number by a positive finite scale,
as used by the `ms` getter of `IMQDelay` (`this.timer * 1000` and so on). -/
def jsMul (n : JSNum) (k : ℚ) : JSNum :=
  match n with
  | .num q => .num (q * k)
  | .nan => .nan
  | .inf => .inf
  | .neginf => .neginf

/-- Model of the JavaScript global `isFinite`. -/
def jsIsFinite : JSNum → Bool
  | .num _ => true
  | _ => false

/-- Model of the JavaScript global `isNaN`. -/
def jsIsNaN : JSNum → Bool
  | .nan => true
  | _ => false

/-- Truth value of the JavaScript comparison `delay < 0`; comparisons
against NaN are false, and negative infinity is below zero. -/
def jsIsNeg : JSNum → Bool
  | .num q => decide (q < 0)
  | .neginf => true
  | _ => false

/-- Unit tag of `IMQDelay`, from the constructor parameter
`unit: 'ms' | 's' | 'm' | 'h' | 'd'` of the IMQDelay source. -/
inductive TimeUnit
  | ms
  | s
  | m
  | h
  | d
  deriving DecidableEq

/-- Model of `class IMQDelay` from the IMQDelay source file: a magnitude
`timer` and a `unit`. -/
structure IMQDelay where
  timer : JSNum
  unit : TimeUnit
  deriving DecidableEq

/-- Getter `get ms()` of `IMQDelay` (IMQDelay source, lines 19-27):
returns the magnitude scaled by the unit factor, with `ms` returning the
magnitude unchanged. -/
def IMQDelay.ms (dl : IMQDelay) : JSNum :=
  match dl.unit with
  | .ms => dl.timer
  | .s => jsMul dl.timer 1000
  | .m => jsMul dl.timer 60000
  | .h => jsMul dl.timer 3600000
  | .d => jsMul dl.timer 86400000

/-- Clamp performed by `IMQClient.remoteCall` (src/IMQClient.ts, lines
122-126): `if (!isFinite(delay) || isNaN(delay) || delay < 0) delay = 0`. -/
def clampDelay (delay : JSNum) : JSNum :=
  if (!jsIsFinite delay || jsIsNaN delay || jsIsNeg delay) then .num 0 else delay

/-- Unit scale table as the spec states it (spec section 3, DelaySpec):
ms:1, s:1000, m:60000, h:3600000, d:86400000; written from the spec's
words for comparison with the source's `ms` getter. -/
def unitScale : TimeUnit → ℚ
  | .ms => 1
  | .s => 1000
  | .m => 60000
  | .h => 3600000
  | .d => 86400000

lemma clampDelay_nonneg (n : JSNum) :
    ∃ q : ℚ, clampDelay n = JSNum.num q ∧ 0 ≤ q := by
  cases n with
  | num q =>
    by_cases hq : q < 0
    · exact ⟨0, by simp [clampDelay, jsIsFinite, jsIsNaN, jsIsNeg, hq], le_refl 0⟩
    · exact ⟨q, by simp [clampDelay, jsIsFinite, jsIsNaN, jsIsNeg, hq], le_of_not_lt hq⟩
  | nan => exact ⟨0, by simp [clampDelay, jsIsFinite, jsIsNaN, jsIsNeg], le_refl 0⟩
  | inf => exact ⟨0, by simp [clampDelay, jsIsFinite, jsIsNaN, jsIsNeg], le_refl 0⟩
  | neginf => exact ⟨0, by simp [clampDelay, jsIsFinite, jsIsNaN, jsIsNeg], le_refl 0⟩

lemma ms_eq_scale (dl : IMQDelay) :
    dl.ms = jsMul dl.timer (unitScale dl.unit) := by
  obtain ⟨t, u⟩ := dl
  cases u <;> cases t <;> simp [IMQDelay.ms, jsMul, unitScale]

/-- C7: the millisecond delay used when dispatching a call is the magnitude
scaled by the unit factor, then clamped: the result is always a finite
non-negative number, NaN, infinite and negative values collapse to 0, and
the concrete table of the spec holds: one second gives 1000, two minutes
give 120000, one hour gives 3600000, one day gives 86400000, and NaN,
negative and infinite magnitudes in milliseconds all give 0. -/
theorem delay_policy_nonneg_and_table (dl : IMQDelay) :
    dl.ms = jsMul dl.timer (unitScale dl.unit) ∧
    (∃ q : ℚ, clampDelay dl.ms = JSNum.num q ∧ 0 ≤ q) ∧
    clampDelay (IMQDelay.mk (JSNum.num 1) TimeUnit.s).ms = JSNum.num 1000 ∧
    clampDelay (IMQDelay.mk (JSNum.num 2) TimeUnit.m).ms = JSNum.num 120000 ∧
    clampDelay (IMQDelay.mk (JSNum.num 1) TimeUnit.h).ms = JSNum.num 3600000 ∧
    clampDelay (IMQDelay.mk (JSNum.num 1) TimeUnit.d).ms = JSNum.num 86400000 ∧
    clampDelay (IMQDelay.mk JSNum.nan TimeUnit.ms).ms = JSNum.num 0 ∧
    clampDelay (IMQDelay.mk (JSNum.num (-5)) TimeUnit.ms).ms = JSNum.num 0 ∧
    clampDelay (IMQDelay.mk JSNum.inf TimeUnit.ms).ms = JSNum.num 0 := by
  refine ⟨ms_eq_scale dl, clampDelay_nonneg dl.ms, ?_, ?_, ?_, ?_, ?_, ?_, ?_⟩ <;>
    norm_num [IMQDelay.ms, jsMul, clampDelay, jsIsFinite, jsIsNaN, jsIsNeg]

/-- Model of a JavaScript value appearing in the variadic argument list of
`remoteCall`: either the `undefined` produced by popping an empty array, a
plain value, or an `IMQDelay` instance (the only case distinguished by the
source through `instanceof IMQDelay`). -/
inductive JSArg (α : Type)
  | undef
  | plain (v : α)
  | delay (dl : IMQDelay)
  deriving DecidableEq

/-- Model of `Array.prototype.pop`: removes and returns the last element,
yielding `undefined` on an empty array. -/
def jsPop {α : Type} (args : List (JSArg α)) : JSArg α × List (JSArg α) :=
  match args.getLast? with
  | none => (.undef, [])
  | some x => (x, args.dropLast)

/-- Truth value of `args[args.length - 1] instanceof IMQDelay` given the
last element of the array, if any. -/
def isDelayVal {α : Type} : Option (JSArg α) → Bool
  | some (.delay _) => true
  | _ => false

/-- Argument interpretation of `IMQClient.remoteCall` (src/IMQClient.ts,
lines 112-135): pop the last element as the method name, then, if the new
last element is an `IMQDelay`, pop it and use its clamped millisecond value
as the dispatch delay; the returned triple is the method, the argument list
sent in the request message, and the delay handed to the transport. -/
def remoteCallParse {α : Type} (args : List (JSArg α)) :
    JSArg α × List (JSArg α) × JSNum :=
  let pm := jsPop args
  match pm.2.getLast? with
  | some (JSArg.delay dl) => (pm.1, (jsPop pm.2).2, clampDelay dl.ms)
  | _ => (pm.1, pm.2, JSNum.num 0)

lemma jsPop_concat {α : Type} (l : List (JSArg α)) (a : JSArg α) :
    jsPop (l ++ [a]) = (a, l) := by
  simp [jsPop, List.getLast?_concat, List.dropLast_concat]

lemma jsPop_concat2 {α : Type} (l : List (JSArg α)) (a b : JSArg α) :
    jsPop (l ++ [a, b]) = (b, l ++ [a]) := by
  have h1 : l ++ [a, b] = (l ++ [a]) ++ [b] := by simp
  rw [h1, jsPop_concat]

/-- C10: `remoteCall` interprets the last element of its argument list as
the remote method name, popping it first, and only then inspects the new
last element for a delay value; the request carries the original final
argument as the method and the remaining arguments (with any trailing
delay removed) as `args`, so callers must append the method name last. -/
theorem remoteCall_method_and_delay_parsing {α : Type} (pre : List (JSArg α))
    (m : JSArg α) (dl : IMQDelay) (h : isDelayVal pre.getLast? = false) :
    remoteCallParse (pre ++ [JSArg.delay dl, m]) = (m, pre, clampDelay dl.ms) ∧
    remoteCallParse (pre ++ [m]) = (m, pre, JSNum.num 0) := by
  constructor
  · simp only [remoteCallParse, jsPop_concat2, List.getLast?_concat, jsPop_concat]
  · cases hl : pre.getLast? with
    | none => simp [remoteCallParse, jsPop_concat, hl]
    | some x =>
      cases x with
      | undef => simp [remoteCallParse, jsPop_concat, hl]
      | plain v => simp [remoteCallParse, jsPop_concat, hl]
      | delay d2 =>
        rw [hl] at h
        simp [isDelayVal] at h

/-- Witness for C10 at a concrete call: two plain arguments, a five-second
delay and the method name. -/
theorem remoteCall_method_and_delay_parsing_instance :
    isDelayVal ([JSArg.plain 1, JSArg.plain 2] : List (JSArg Nat)).getLast? = false ∧
    (remoteCallParse ([JSArg.plain 1, JSArg.plain 2] ++
        [JSArg.delay (IMQDelay.mk (JSNum.num 5) TimeUnit.s), JSArg.plain 9]) =
      (JSArg.plain 9, [JSArg.plain 1, JSArg.plain 2],
        clampDelay (IMQDelay.mk (JSNum.num 5) TimeUnit.s).ms) ∧
     remoteCallParse ([JSArg.plain 1, JSArg.plain 2] ++ [JSArg.plain 9]) =
      (JSArg.plain 9, [JSArg.plain 1, JSArg.plain 2], JSNum.num 0)) :=
  ⟨rfl, remoteCall_method_and_delay_parsing [JSArg.plain 1, JSArg.plain 2]
    (JSArg.plain 9) (IMQDelay.mk (JSNum.num 5) TimeUnit.s) rfl⟩

/-- Model of the private field `resolvers: { [id: string]: [resolve, reject] }`
of `IMQClient`: an association list from correlation ids to the pair of
callbacks registered for the pending call.  `R` is the abstract type of a
callback. -/
abbrev Resolvers (R : Type) := List (String × (R × R))

/-- Property lookup `obj[key]` on the registry object. -/
def findRes {β : Type} : List (String × β) → String → Option β
  | [], _ => none
  | (k, v) :: rest, key => if k = key then some v else findRes rest key

/-- Model of `delete obj[key]` on the registry object. -/
def deleteRes {β : Type} : List (String × β) → String → List (String × β)
  | [], _ => []
  | (k, v) :: rest, key =>
    if k = key then deleteRes rest key else (k, v) :: deleteRes rest key

/-- Model of the property assignment `obj[key] = v` on the registry object. -/
def setRes {β : Type} : List (String × β) → String → β → List (String × β)
  | [], key, v => [(key, v)]
  | (k, w) :: rest, key, v =>
    if k = key then (key, v) :: rest else (k, w) :: setRes rest key v

lemma findRes_deleteRes {β : Type} (rs : List (String × β)) (key : String) :
    findRes (deleteRes rs key) key = none := by
  induction rs with
  | nil => rfl
  | cons p rest ih =>
    obtain ⟨k, v⟩ := p
    by_cases hk : k = key
    · simp [deleteRes, hk, ih]
    · simp [deleteRes, findRes, hk, ih]

/-- Model of the `request` field echoed inside an inbound response
(`IMQRPCRequest`); only the method name is inspected by the handler. -/
structure IMQRPCRequest where
  method : String
  deriving DecidableEq

/-- Model of an inbound `IMQRPCResponse`: the `to` field is the correlation
id, `request` echoes the original request, and `data` and `error` are the
payloads; `error` is `none` when the wire value is null. -/
structure IMQRPCResponse (P : Type) where
  «to» : String
  request : IMQRPCRequest
  data : P
  error : Option P
  deriving DecidableEq

/-- Outcome of one run of the message handler installed by
`IMQClient.start`.  `orphanEmitThrow` records the orphan path: the handler
emits an event named after the original request's method carrying the full
response, and then throws a TypeError, because the source destructures
`this.resolvers[message.«to»]`, which is `undefined`, without returning after
the emit.  `rejected` and `resolved` record which registered callback was
invoked and with which payload. -/
inductive HandlerOutcome (R P : Type)
  | orphanEmitThrow (event : String) (message : IMQRPCResponse P)
  | rejected (cb : R) (err : P)
  | resolved (cb : R) (data : P)
  deriving DecidableEq

/-- Message handler installed by `IMQClient.start` (src/IMQClient.ts, lines
174-198): look up the correlation id; on a miss emit the event and then
fail on the destructuring of `undefined`; on a hit delete the entry and
invoke the rejection callback with the error payload when one is present,
otherwise the resolution callback with the data payload. -/
def startOnMessage {R P : Type} (resolvers : Resolvers R)
    (message : IMQRPCResponse P) : HandlerOutcome R P × Resolvers R :=
  match findRes resolvers message.«to» with
  | none => (.orphanEmitThrow message.request.method message, resolvers)
  | some pr =>
    let rsAfter := deleteRes resolvers message.«to»
    match message.error with
    | some err => (.rejected pr.2 err, rsAfter)
    | none => (.resolved pr.1 message.data, rsAfter)

lemma startOnMessage_of_not_found {R P : Type} (rs : Resolvers R)
    (m : IMQRPCResponse P) (h : findRes rs m.«to» = none) :
    startOnMessage rs m = (.orphanEmitThrow m.request.method m, rs) := by
  unfold startOnMessage
  rw [h]

lemma startOnMessage_of_found {R P : Type} (rs : Resolvers R)
    (m : IMQRPCResponse P) (pr : R × R) (h : findRes rs m.«to» = some pr) :
    startOnMessage rs m =
      (match m.error with
       | some err => (HandlerOutcome.rejected pr.2 err, deleteRes rs m.«to»)
       | none => (HandlerOutcome.resolved pr.1 m.data, deleteRes rs m.«to»)) := by
  unfold startOnMessage
  rw [h]

/-- C1: for a response whose correlation id matches a pending entry, the
handler removes the entry from the registry and settles the call exactly
once: the rejection callback runs on the error payload when one is present,
otherwise the resolution callback runs on the data payload, and any later
response with the same correlation id finds no entry and therefore never
settles the call again. -/
theorem matched_response_settles_once {R P : Type} (resolvers : Resolvers R)
    (message : IMQRPCResponse P) (pr : R × R)
    (h : findRes resolvers message.«to» = some pr) :
    (startOnMessage resolvers message).2 = deleteRes resolvers message.«to» ∧
    findRes (startOnMessage resolvers message).2 message.«to» = none ∧
    (startOnMessage resolvers message).1 =
      (match message.error with
       | some err => HandlerOutcome.rejected pr.2 err
       | none => HandlerOutcome.resolved pr.1 message.data) ∧
    (∀ m2 : IMQRPCResponse P, m2.«to» = message.«to» →
      (startOnMessage (startOnMessage resolvers message).2 m2).1 =
        HandlerOutcome.orphanEmitThrow m2.request.method m2) := by
  have hc := startOnMessage_of_found resolvers message pr h
  have hreg : (startOnMessage resolvers message).2 =
      deleteRes resolvers message.«to» := by
    rw [hc]
    cases message.error <;> rfl
  have hnone : findRes (startOnMessage resolvers message).2 message.«to» = none := by
    rw [hreg]
    exact findRes_deleteRes resolvers message.«to»
  refine ⟨hreg, hnone, ?_, ?_⟩
  · rw [hc]
    cases message.error <;> rfl
  · intro m2 hm2
    have h2 : findRes (startOnMessage resolvers message).2 m2.«to» = none := by
      rw [hm2]
      exact hnone
    rw [startOnMessage_of_not_found _ m2 h2]

/-- Witness for C1 at a concrete registry with one pending entry and a
successful response for it. -/
theorem matched_response_settles_once_instance :
    findRes ([("q1", (11, 22))] : Resolvers Nat)
        (IMQRPCResponse.mk "q1" (IMQRPCRequest.mk "add") (7 : Nat) none).«to» =
      some (11, 22) ∧
    ((startOnMessage ([("q1", (11, 22))] : Resolvers Nat)
        (IMQRPCResponse.mk "q1" (IMQRPCRequest.mk "add") (7 : Nat) none)).2 =
      deleteRes [("q1", (11, 22))] "q1" ∧
     findRes (startOnMessage ([("q1", (11, 22))] : Resolvers Nat)
        (IMQRPCResponse.mk "q1" (IMQRPCRequest.mk "add") (7 : Nat) none)).2 "q1" =
      none ∧
     (startOnMessage ([("q1", (11, 22))] : Resolvers Nat)
        (IMQRPCResponse.mk "q1" (IMQRPCRequest.mk "add") (7 : Nat) none)).1 =
      HandlerOutcome.resolved 11 7 ∧
     (∀ m2 : IMQRPCResponse Nat, m2.«to» = "q1" →
       (startOnMessage (startOnMessage ([("q1", (11, 22))] : Resolvers Nat)
          (IMQRPCResponse.mk "q1" (IMQRPCRequest.mk "add") (7 : Nat) none)).2 m2).1 =
         HandlerOutcome.orphanEmitThrow m2.request.method m2)) :=
  ⟨rfl, matched_response_settles_once [("q1", (11, 22))]
    (IMQRPCResponse.mk "q1" (IMQRPCRequest.mk "add") (7 : Nat) none) (11, 22) rfl⟩

/-- C2 (code bug): on a response whose correlation id matches no pending
entry the handler emits the event named after the original request's method
carrying the full response, but then throws a TypeError instead of
completing normally, because the source destructures
`this.resolvers[message.«to»]` (which is `undefined`) without returning after
the emit; evaluated here at a concrete orphan response against an empty
registry. -/
theorem orphan_response_emits_then_throws :
    startOnMessage ([] : Resolvers Nat)
        (IMQRPCResponse.mk "a1" (IMQRPCRequest.mk "ping") (0 : Nat) none) =
      (HandlerOutcome.orphanEmitThrow "ping"
        (IMQRPCResponse.mk "a1" (IMQRPCRequest.mk "ping") (0 : Nat) none), []) :=
  rfl

/-- Outcome of evaluating the body of the promise executor inside
`remoteCall` against one send attempt. -/
inductive SendOutcome (E : Type)
  | ok (id : String)
  | threw (e : E)
  deriving DecidableEq

/-- Result of the dispatch: either the call is left pending under the
correlation id the transport returned, or the promise was rejected with
the thrown error. -/
inductive DispatchResult (R E : Type)
  | pendingRegistered (id : String)
  | rejected (cb : R) (e : E)
  deriving DecidableEq

/-- Dispatch step of `IMQClient.remoteCall` (src/IMQClient.ts, lines
128-144): inside `try`, send the message and register the resolver pair
under the returned id; inside `catch`, reject this call's promise with the
thrown error and leave the registry untouched. -/
def remoteCallDispatch {R E : Type} (rs : Resolvers R) (pr : R × R)
    (send : SendOutcome E) : DispatchResult R E × Resolvers R :=
  match send with
  | .ok id => (.pendingRegistered id, setRes rs id pr)
  | .threw e => (.rejected pr.2 e, rs)

/-- C9: when the transport's send primitive throws, only the dispatching
call's promise is rejected with the thrown error, no entry is added to the
resolvers registry, and every other pending entry is left unchanged. -/
theorem send_failure_rejects_only_this_call {R E : Type} (rs : Resolvers R)
    (pr : R × R) (e : E) :
    (remoteCallDispatch rs pr (SendOutcome.threw e)).1 =
      DispatchResult.rejected pr.2 e ∧
    (remoteCallDispatch rs pr (SendOutcome.threw e)).2 = rs ∧
    (∀ key : String,
      findRes (remoteCallDispatch rs pr (SendOutcome.threw e)).2 key =
        findRes rs key) :=
  ⟨rfl, rfl, fun _ => rfl⟩

lemma isPrefixOf_append_self (p t : Str) : p.isPrefixOf (p ++ t) = true := by
  simp

lemma isSuffixOf_append_self (p s : Str) : s.isSuffixOf (p ++ s) = true := by
  simp

/-- Return-type wrapper from the generator (src/IMQClient.ts, lines
449-456): wrap the declared type in `Promise<...>` unless it already starts
with `Promise<` (the regex test `/^Promise</`). -/
def promisedType (typedef : Str) : Str :=
  if (str "Promise<").isPrefixOf typedef then typedef
  else str "Promise<" ++ typedef ++ str ">"

/-- Promise stripper from the generator (src/IMQClient.ts, lines 465-467):
the replacement `replace(/^Promise<([\s\S]+?)>$/, sel)` with the group
selector; because of the anchors the regex matches exactly when the string
starts with `Promise<`, ends with `>` and has a non-empty middle, in which
case the first eight characters and the final character are removed. -/
def cleanType (typedef : Str) : Str :=
  if (str "Promise<").isPrefixOf typedef && (str ">").isSuffixOf typedef &&
      decide (10 ≤ typedef.length)
  then (typedef.drop 8).dropLast
  else typedef

/-- C5 counterexample: a declared return type that is already doubly
wrapped stays doubly wrapped in the generated signature, because
`promisedType` leaves any type starting with `Promise<` unchanged; the
generated return type still contains a nested wrapper after removing the
outer one, contradicting the claim that the result never has a nested
double wrapper regardless of the input. -/
theorem double_wrapped_return_type_stays_double :
    promisedType (str "Promise<Promise<number>>") =
      str "Promise<Promise<number>>" ∧
    cleanType (str "Promise<Promise<number>>") = str "Promise<number>" ∧
    (str "Promise<").isPrefixOf
      (cleanType (promisedType (str "Promise<Promise<number>>"))) = true := by
  refine ⟨by decide, by decide, by decide⟩

/-- C5 amended: the generated return type always begins with a `Promise<`
wrapper; a declared type not already starting with `Promise<` is wrapped in
exactly one layer (stripping that layer gives back the declared type, which
is not itself wrapped), while a declared type already starting with
`Promise<` is kept unchanged, so a doubly wrapped input remains doubly
wrapped. -/
theorem generated_return_type_shape (t : Str) :
    (str "Promise<").isPrefixOf (promisedType t) = true ∧
    ((str "Promise<").isPrefixOf t = true → promisedType t = t) ∧
    ((str "Promise<").isPrefixOf t = false →
      promisedType t = str "Promise<" ++ t ++ str ">" ∧
      (t = [] ∨ (cleanType (promisedType t) = t ∧
        (str "Promise<").isPrefixOf (cleanType (promisedType t)) = false))) := by
  cases hp : (str "Promise<").isPrefixOf t with
  | true =>
    have hid : promisedType t = t := by simp [promisedType, hp]
    exact ⟨by rw [hid, hp], fun _ => hid, fun hcontra => by simp [hp] at hcontra⟩
  | false =>
    have hwrap : promisedType t = str "Promise<" ++ t ++ str ">" := by
      simp [promisedType, hp]
    have hpre : (str "Promise<").isPrefixOf (promisedType t) = true := by
      rw [hwrap, List.append_assoc]
      exact isPrefixOf_append_self (str "Promise<") (t ++ str ">")
    refine ⟨hpre, fun hcontra => by simp [hp] at hcontra,
      fun _ => ⟨hwrap, ?_⟩⟩
    cases t with
    | nil => exact Or.inl rfl
    | cons c cs =>
      refine Or.inr ?_
      have hgt : str ">" = ['>'] := rfl
      have hlen8 : (str "Promise<").length = 8 := rfl
      have hlen : (str "Promise<" ++ (c :: cs) ++ str ">").length =
          (c :: cs).length + 9 := by
        simp [List.length_append, hlen8, hgt]
        omega
      have hcond : ((str "Promise<").isPrefixOf (promisedType (c :: cs)) &&
          (str ">").isSuffixOf (promisedType (c :: cs)) &&
          decide (10 ≤ (promisedType (c :: cs)).length)) = true := by
        have hsuf : (str ">").isSuffixOf (promisedType (c :: cs)) = true := by
          rw [hwrap]
          exact isSuffixOf_append_self (str "Promise<" ++ (c :: cs)) (str ">")
        have hten : 10 ≤ (promisedType (c :: cs)).length := by
          rw [hwrap, hlen, List.length_cons]
          omega
        rw [hpre, hsuf]
        simp [hten]
      have hdrop : (promisedType (c :: cs)).drop 8 = (c :: cs) ++ str ">" := by
        rw [hwrap, List.append_assoc, ← hlen8, List.drop_left]
      have hclean : cleanType (promisedType (c :: cs)) = c :: cs := by
        rw [cleanType, if_pos ?side]
        case side => rw [hcond]
        rw [hdrop, hgt, List.dropLast_concat]
      exact ⟨hclean, by rw [hclean]; exact hp⟩

/-- Witness for C5 at the concrete unwrapped declared type `number`. -/
theorem generated_return_type_shape_instance :
    promisedType (str "number") = str "Promise<" ++ str "number" ++ str ">" ∧
    cleanType (promisedType (str "number")) = str "number" := by
  have h := (generated_return_type_shape (str "number")).2.2 (by decide)
  refine ⟨h.1, ?_⟩
  rcases h.2 with h2 | h2
  · exact absurd h2 (by decide)
  · exact h2.1

/-- Derivation of the generated client type name from the service name
(src/IMQClient.ts, line 311): `serviceName.replace(/Service$|$/, sel)` with
the literal replacement `Client`; the first regex match is the trailing
`Service` when present, otherwise the empty match at the end of the string,
so the suffix is replaced or the word appended. -/
def clientName (serviceName : Str) : Str :=
  if (str "Service").isSuffixOf serviceName
  then serviceName.take (serviceName.length - 7) ++ str "Client"
  else serviceName ++ str "Client"

/-- Derivation of the generated namespace identifier (src/IMQClient.ts,
lines 312-313): `serviceName.charAt(0).toLowerCase() +
serviceName.substr(1)`, applied to the service name. -/
def namespaceName (serviceName : Str) : Str :=
  match serviceName with
  | [] => []
  | c :: rest => Char.toLower c :: rest

/-- C6 counterexample: for the fetched service name `MyService` the
generated client type name is `MyClient`, but the namespace identifier is
the lower-cased service name `myService`, not the lower-cased client name
`myClient` the claim requires. -/
theorem namespace_derived_from_service_name :
    clientName (str "MyService") = str "MyClient" ∧
    namespaceName (str "MyService") = str "myService" ∧
    namespaceName (str "MyService") ≠
      namespaceName (clientName (str "MyService")) := by
  refine ⟨by decide, by decide, by decide⟩

/-- C6 amended: the client type name is the service name with a trailing
`Service` suffix replaced by `Client`, or with `Client` appended when no
such suffix exists, while the namespace identifier is the service name
itself (not the client name) with its leading character lower-cased. -/
theorem client_and_namespace_naming (p s rest : Str) (c : Char)
    (h : (str "Service").isSuffixOf s = false) :
    clientName (p ++ str "Service") = p ++ str "Client" ∧
    clientName s = s ++ str "Client" ∧
    namespaceName (c :: rest) = Char.toLower c :: rest ∧
    namespaceName ([] : Str) = [] := by
  refine ⟨?_, by simp [clientName, h], rfl, rfl⟩
  have hsuf := isSuffixOf_append_self p (str "Service")
  have hlen7 : (str "Service").length = 7 := rfl
  have hlen : (p ++ str "Service").length = p.length + 7 := by
    rw [List.length_append, hlen7]
  simp only [clientName, hsuf, if_true]
  rw [hlen, Nat.add_sub_cancel, List.take_left p (str "Service")]

/-- Witness for C6 at concrete names: service name `MyService`
(decomposed as `My` plus the suffix) and suffix-free service name `Data`. -/
theorem client_and_namespace_naming_instance :
    clientName (str "My" ++ str "Service") = str "My" ++ str "Client" ∧
    clientName (str "Data") = str "Data" ++ str "Client" ∧
    namespaceName ('M' :: str "yService") = Char.toLower 'M' :: str "yService" ∧
    namespaceName ([] : Str) = [] :=
  client_and_namespace_naming (str "My") (str "Data") (str "yService") 'M'
    (by decide)

/-- Model of one entry of a schema method's `arguments` array, with the
fields the generator reads and writes (src/IMQClient.ts, lines 381-392). -/
structure MethodArg where
  name : Str
  type : Str
  tsType : Str
  isOptional : Bool
  description : Str
  deriving DecidableEq

/-- Trailing delay argument pushed by the generator (src/IMQClient.ts,
lines 384-391). -/
def delayArg : MethodArg :=
  { name := str "delay"
    type := str "IMQDelay"
    tsType := str "IMQDelay"
    isOptional := true
    description := str "if passed the method will be called with the specified delay over message queue" }

/-- Delay-argument insertion of the generator (src/IMQClient.ts, lines
380-392): `const lastArg = args[args.length - 1]; if (lastArg &&
lastArg.type !== 'IMQDelay') args.push(delayArg)`; on an empty argument
list `lastArg` is `undefined`, so nothing is appended. -/
def ensureDelayArg (args : List MethodArg) : List MethodArg :=
  match args.getLast? with
  | some lastArg =>
    if lastArg.type ≠ str "IMQDelay" then args ++ [delayArg] else args
  | none => args

/-- C4 (code bug): the generator's own comment says it makes sure each
method allows an optional delay argument, and a two-argument method such as
`add(a, b)` indeed becomes a three-parameter signature, but a method
declared with zero arguments is left without the delay parameter because
the truthiness guard on the undefined last argument skips the push; a
method whose last argument is already an `IMQDelay` is left unchanged. -/
theorem zero_arg_method_gets_no_delay :
    ensureDelayArg [] = [] ∧
    ensureDelayArg
        [MethodArg.mk (str "a") (str "number") (str "number") false [],
         MethodArg.mk (str "b") (str "number") (str "number") false []] =
      [MethodArg.mk (str "a") (str "number") (str "number") false [],
       MethodArg.mk (str "b") (str "number") (str "number") false [], delayArg] ∧
    (ensureDelayArg
        [MethodArg.mk (str "a") (str "number") (str "number") false [],
         MethodArg.mk (str "b") (str "number") (str "number") false []]).length = 3 ∧
    ensureDelayArg [delayArg] = [delayArg] := by
  refine ⟨rfl, by decide, by decide, by decide⟩

/-- Model of the error value settled by `getDescription`: `evalError` is the
`new EvalError(...)` the source constructs on timeout; `timeoutError` is the
TimeoutError the spec speaks of, included only so the two can be compared. -/
inductive JSError
  | evalError (message : Str)
  | timeoutError (message : Str)
  deriving DecidableEq

/-- Message of the error built in the timeout handler of `getDescription`
(src/IMQClient.ts, lines 283-284): the concatenation
`'Generate client error: service remote ' + 'call timed-out! Is service
"<name>" running?'` with the service name interpolated. -/
def generateClientErrorMessage (name : Str) : Str :=
  str "Generate client error: service remote call timed-out! Is service \"" ++
    name ++ str "\" running?"

/-- Written from the spec's words, for comparison only: the message form
`service unreachable: is <name> running?` with the name between backticks,
which the spec attributes to the timeout failure. -/
def specTimeoutMessage (name : Str) : Str :=
  str "service unreachable: is `" ++ name ++ str "` running?"

/-- Observable step of one run of `getDescription`
(src/IMQClient.ts, lines 273-293). -/
inductive ProbeEvent (D : Type)
  | created
  | started
  | destroyed
  | timerCleared
  | rejectedCall (e : JSError)
  | resolvedCall (d : D)
  deriving DecidableEq

/-- Environment behaviour `getDescription` is run against: either the
`describe` response arrives before the timer fires, or the timer fires
first. -/
inductive ProbeScenario (D : Type)
  | timesOut
  | responds (d : D)

/-- Event trace of `getDescription` (src/IMQClient.ts, lines 273-293): the
transient client is created and started; when the timer fires first, the
client is destroyed, the timer cleared and the promise rejected with the
EvalError; when the response arrives first, the timer is cleared, the
client destroyed and the promise resolved with the description. -/
def getDescriptionTrace {D : Type} (name : Str) (sc : ProbeScenario D) :
    List (ProbeEvent D) :=
  match sc with
  | .timesOut =>
    [.created, .started, .destroyed, .timerCleared,
     .rejectedCall (.evalError (generateClientErrorMessage name))]
  | .responds d =>
    [.created, .started, .timerCleared, .destroyed, .resolvedCall d]

/-- Error the trace rejected the promise with, if any. -/
def rejectedError {D : Type} (tr : List (ProbeEvent D)) : Option JSError :=
  tr.findSome? fun e =>
    match e with
    | .rejectedCall err => some err
    | _ => none

/-- Description the trace resolved the promise with, if any. -/
def resolvedValue {D : Type} (tr : List (ProbeEvent D)) : Option D :=
  tr.findSome? fun e =>
    match e with
    | .resolvedCall d => some d
    | _ => none

/-- Truth value of an event being a settlement of the promise. -/
def isSettlement {D : Type} : ProbeEvent D → Bool
  | .rejectedCall _ => true
  | .resolvedCall _ => true
  | _ => false

/-- Holds when the transient client is destroyed strictly before the
promise is settled in the trace. -/
def destroyedBeforeSettlement {D : Type} (tr : List (ProbeEvent D)) : Prop :=
  ∃ i j, i < j ∧ tr.get? i = some ProbeEvent.destroyed ∧
    ∃ e, tr.get? j = some e ∧ isSettlement e = true

/-- C3 counterexample: on timeout, `getDescription` for service `test`
rejects with an EvalError whose message is `Generate client error: service
remote call timed-out! Is service "test" running?`; this is neither the
TimeoutError nor the message form `service unreachable: is (name)
running?` that the claim states. -/
theorem timeout_error_is_evalError_not_spec_form :
    rejectedError (getDescriptionTrace (str "test")
        (ProbeScenario.timesOut : ProbeScenario Nat)) =
      some (JSError.evalError (generateClientErrorMessage (str "test"))) ∧
    generateClientErrorMessage (str "test") ≠ specTimeoutMessage (str "test") ∧
    JSError.evalError (generateClientErrorMessage (str "test")) ≠
      JSError.timeoutError (specTimeoutMessage (str "test")) := by
  refine ⟨rfl, by decide, by decide⟩

/-- C3 amended: when no description response arrives within the timeout,
`getDescription` destroys the transient probing client and then rejects
with an EvalError whose message is `Generate client error: service remote
call timed-out! Is service "<name>" running?` (so the message does carry
the target service name); on the success path the transient client is
likewise destroyed before the description is returned. -/
theorem getDescription_timeout_and_success_paths {D : Type} (name : Str) (d : D) :
    rejectedError (getDescriptionTrace name
        (ProbeScenario.timesOut : ProbeScenario D)) =
      some (JSError.evalError (generateClientErrorMessage name)) ∧
    (∃ pre suf, generateClientErrorMessage name = pre ++ name ++ suf) ∧
    destroyedBeforeSettlement (getDescriptionTrace name
      (ProbeScenario.timesOut : ProbeScenario D)) ∧
    destroyedBeforeSettlement (getDescriptionTrace name (ProbeScenario.responds d)) ∧
    rejectedError (getDescriptionTrace name (ProbeScenario.responds d)) = none ∧
    resolvedValue (getDescriptionTrace name (ProbeScenario.responds d)) = some d := by
  refine ⟨rfl,
    ⟨str "Generate client error: service remote call timed-out! Is service \"",
     str "\" running?", rfl⟩,
    ⟨2, 4, by omega, rfl, ⟨JSError.evalError (generateClientErrorMessage name) |>
      ProbeEvent.rejectedCall, rfl, rfl⟩⟩,
    ⟨3, 4, by omega, rfl, ⟨ProbeEvent.resolvedCall d, rfl, rfl⟩⟩,
    rfl, rfl⟩

/-- State of one client as far as `destroy` touches it.  The transport and
process-identity collaborators are not part of src; their effect is
modelled from the spec's collaborator contract (section 6) and lifecycle
description (section 4.3). -/
structure ClientState where
  broadcastSubscribed : Bool
  listeners : Nat
  pidRegistered : Bool
  queueActive : Bool
  deriving DecidableEq

/-- Modelled from the spec: `imq.unsubscribe()` releases the broadcast
channel subscription (section 6 transport contract). -/
def imqUnsubscribe (s : ClientState) : ClientState :=
  { s with broadcastSubscribed := false }

/-- Modelled from the spec: `forgetPid` releases the process identity
(section 6, `releaseId`). -/
def forgetPidStep (s : ClientState) : ClientState :=
  { s with pidRegistered := false }

/-- Effect of `this.removeAllListeners()` on the inherited EventEmitter:
every registered observer is removed. -/
def removeAllListenersStep (s : ClientState) : ClientState :=
  { s with listeners := 0 }

/-- Modelled from the spec: `imq.destroy()` releases the transport handle
and its message consumption (section 6 transport contract). -/
def imqDestroy (s : ClientState) : ClientState :=
  { s with queueActive := false }

/-- Body of `IMQClient.destroy` (src/IMQClient.ts, lines 218-223):
unsubscribe from the broadcast channel, release the process identity,
remove all listeners, destroy the transport handle. -/
def destroyClient (s : ClientState) : ClientState :=
  imqDestroy (removeAllListenersStep (forgetPidStep (imqUnsubscribe s)))

/-- C8: `destroy` is idempotent, a second call after completion changes
nothing, and after either call the client holds no broadcast subscription,
no registered observers, no process identity and no live transport handle;
every step of the model is a total function, so no call throws. -/
theorem destroy_idempotent_and_releases_all (s : ClientState) :
    destroyClient (destroyClient s) = destroyClient s ∧
    (destroyClient s).broadcastSubscribed = false ∧
    (destroyClient s).listeners = 0 ∧
    (destroyClient s).pidRegistered = false ∧
    (destroyClient s).queueActive = false :=
  ⟨rfl, rfl, rfl, rfl, rfl⟩

end ImqRpc
